import Mathlib

/-!
Verification of the cuckoo-leaderboard engagement engine.

This file gives a shallow embedding of the two JavaScript source files of the
repository — `scraper.js` (deduplication-key computation and CSV persistence of
scraped activity records) and `leaderboard.js` (timer-event extraction, presence
window construction, eligibility/overlap attribution and leaderboard
aggregation) — and proves properties of that embedding.

Modelling conventions:
* JavaScript timestamps (`Date` values) are absolute milliseconds, modelled as
  `Int` (or `Nat` on the scraper side where all times are nonnegative).
  `Date` arithmetic such as `setMinutes(0,0,0)` is modelled in UTC.
* JavaScript strings are modelled as `List Char` where character-level
  behaviour matters (regular-expression matching, `split(',')`), and as
  `String` for opaque identifiers (user names).
* Fractional minute totals (`ms / 60000` in JS, a double) are modelled as
  exact rationals `ℚ`; `Math.round` is `⌊q + 1/2⌋`.
* The mutable per-user window dictionary is modelled as a total function
  `String → List _` (default `[]`, matching `userWindows[user] || []`)
  together with the insertion-ordered key list (`Object.keys`).
* The timestamp serialisation `Date.prototype.toISOString` / `new Date(iso)`
  is modelled as the decimal millisecond codec `natToChars`/`charsToNat`:
  like the ISO-8601 codec it is a comma-free round-tripping encoding of the
  underlying millisecond value, which is all the dedup-key computation uses.
-/

namespace Cuckoo

/-! ### Character and string primitives -/

/-- Case-sensitive test that `pat` occurs at the start of `s`
(character-wise `==`, the semantics of anchored `String.prototype` search). -/
def seqStarts : List Char → List Char → Bool
  | [], _ => true
  | _ :: _, [] => false
  | p :: ps, c :: cs => p == c && seqStarts ps cs

/-- Case-sensitive substring test, the model of JavaScript
`String.prototype.includes`. -/
def containsSeq (pat : List Char) : List Char → Bool
  | [] => pat.isEmpty
  | c :: cs => seqStarts pat (c :: cs) || containsSeq pat cs

/-- Case-insensitive variant of `seqStarts`, used for the `/i` regular
expression flags in `leaderboard.js`. -/
def seqStartsCI : List Char → List Char → Bool
  | [], _ => true
  | _ :: _, [] => false
  | p :: ps, c :: cs => (p.toLower == c.toLower) && seqStartsCI ps cs

/-- Decimal digit list of `n`, least-significant first, with explicit fuel so
that the definition is structurally recursive (fuel `n + 1` always suffices). -/
def natDigitsRev : Nat → Nat → List Nat
  | 0, _ => []
  | f + 1, n => if n < 10 then [n] else n % 10 :: natDigitsRev f (n / 10)

/-- Decimal representation of a natural number as characters. Model of the
millisecond-valued timestamp codec (see the header comment). -/
def natToChars (n : Nat) : List Char :=
  ((natDigitsRev (n + 1) n).reverse).map (fun d => Char.ofNat (48 + d))

/-- Read a decimal digit string back to a number; also the model of
`parseInt` on the digit strings captured by the timer regular expressions. -/
def charsToNat (l : List Char) : Nat :=
  l.foldl (fun a c => 10 * a + (c.toNat - 48)) 0

/-! ### Scraper model (`scraper.js`) -/

/-- One scraped activity record as held in memory by `scrape()` just before
persistence: estimated absolute time (milliseconds), user, action text and the
raw "time ago" string. -/
structure SRecord where
  estMs : Nat
  user : List Char
  action : List Char
  timeAgo : List Char
deriving DecidableEq, Repr

/-- Model of `roundForDedup`: coarse ("hour"/"day") times are floored to the
hour, fine times to the 30-minute boundary (UTC; `setMinutes` zeroing
seconds and milliseconds as in the source). -/
def roundForDedup (ms : Nat) (timeAgoRaw : List Char) : Nat :=
  if containsSeq "hour".toList timeAgoRaw || containsSeq "day".toList timeAgoRaw then
    ms - ms % 3600000
  else
    ms - ms % 1800000

/-- The dedup key built in `scrape()` from the in-memory record:
`roundForDedup(estimatedTimeStr, timeAgo) + "|" + user + "|" + action`
(the original, un-escaped action text). -/
def scrapeDedupKey (r : SRecord) : List Char :=
  natToChars (roundForDedup r.estMs r.timeAgo) ++ '|' :: r.user ++ '|' :: r.action

/-- Comma escaping applied at write time: `action.replace(/,/g, ';')`. -/
def mapComma (l : List Char) : List Char :=
  l.map (fun c => if c = ',' then ';' else c)

/-- The CSV line appended by `scrape()`:
`estimatedTimeStr,scrapeTimeStr,user,safeAction,timeAgo` (without the
trailing newline). -/
def persistLine (scrapeMs : Nat) (r : SRecord) : List Char :=
  natToChars r.estMs ++ ',' :: natToChars scrapeMs ++ ',' :: r.user ++
    ',' :: mapComma r.action ++ ',' :: r.timeAgo

/-- Model of `line.split(',')`. -/
def splitComma : List Char → List (List Char)
  | [] => [[]]
  | c :: cs =>
    if c = ',' then [] :: splitComma cs
    else
      match splitComma cs with
      | [] => [[c]]
      | f :: r => (c :: f) :: r

/-- The key re-derived from a persisted CSV line by
`loadExistingActivities`: split on commas, require at least five fields, and
rebuild `roundForDedup(parts[0], parts[4]) + "|" + parts[2] + "|" + parts[3]`.
Lines with fewer than five fields are skipped (`none`). -/
def persistedLineKey (line : List Char) : Option (List Char) :=
  if 5 ≤ (splitComma line).length then
    some (natToChars (roundForDedup (charsToNat ((splitComma line).getD 0 []))
        ((splitComma line).getD 4 []))
      ++ '|' :: (splitComma line).getD 2 [] ++ '|' :: (splitComma line).getD 3 [])
  else none

/-! ### Timer extraction (`leaderboard.js`, `extractTimerEvents`) -/

/-- JavaScript `\s` on the ASCII range: space, tab, newline, carriage return,
vertical tab, form feed. -/
def jsSpace (c : Char) : Bool :=
  c == ' ' || c == '\t' || c == '\n' || c == '\r' ||
    c == Char.ofNat 11 || c == Char.ofNat 12

/-- Search for a case-insensitive occurrence of `pat` reachable through
`.*?` (the dot does not match a newline, so the search stops at the first
`'\n'`). Model of the trailing `.*?work` / `.*?break` parts of the timer
regular expressions. -/
def searchCI (pat : List Char) : List Char → Bool
  | [] => seqStartsCI pat []
  | c :: cs => seqStartsCI pat (c :: cs) || (c != '\n' && searchCI pat cs)

/-- Lazy scan for `(\d+)\s*minute` followed by a continuation (`cont` receives
the text right after the literal `minute`). Tries candidate digit-run start
positions left to right as the backtracking `.*?` does; the scan cannot cross
a newline (dot semantics), while `\s*` may. Returns the captured number. -/
def numMinuteScan (cont : List Char → Bool) : List Char → Option Nat
  | [] => none
  | c :: cs =>
    if c = '\n' then none
    else if c.isDigit then
      let run := (c :: cs).takeWhile Char.isDigit
      let after := (((c :: cs).dropWhile Char.isDigit).dropWhile fun x => jsSpace x)
      if seqStartsCI "minute".toList after && cont (after.drop 6) then
        some (charsToNat run)
      else numMinuteScan cont cs
    else numMinuteScan cont cs

/-- Top-level regular-expression model: try every position of the subject,
anchor on a case-insensitive `started`, then run `numMinuteScan`; on failure
the overall match position advances by one character, exactly as the regex
engine retries `/started.*?(\d+)\s*minute…/i` at successive start offsets. -/
def startedScan (cont : List Char → Bool) : List Char → Option Nat
  | [] => none
  | c :: cs =>
    if seqStartsCI "started".toList (c :: cs) then
      match numMinuteScan cont ((c :: cs).drop 7) with
      | some n => some n
      | none => startedScan cont cs
    else startedScan cont cs

/-- Model of `action.match(/started.*?(\d+)\s*minute/i)`, returning the
captured duration. -/
def matchTimer (s : List Char) : Option Nat := startedScan (fun _ => true) s

/-- Model of `action.match(/started.*?(\d+)\s*minute.*?work/i)`. -/
def matchWork (s : List Char) : Option Nat := startedScan (searchCI "work".toList) s

/-- Model of `action.match(/started.*?(\d+)\s*minute.*?break/i)`. -/
def matchBreak (s : List Char) : Option Nat := startedScan (searchCI "break".toList) s

/-- Timer type: `'work'` or `'break'`. -/
inductive TType where
  | work
  | brk
deriving DecidableEq, Repr

/-- One parsed activity-feed row as consumed by `leaderboard.js`
(`estimated_time` already as absolute milliseconds, per the header comment). -/
structure Activity where
  time : Int
  user : String
  action : List Char
deriving DecidableEq, Repr

/-- A detected timer event (`timers.push({...})` in `extractTimerEvents`). -/
structure Timer where
  startTime : Int
  endTime : Int
  type : TType
  duration : Nat
  startedBy : String
deriving DecidableEq, Repr

/-- The per-record body of the `extractTimerEvents` loop: skip reserved
system users, then the `workMatch` / `breakMatch` / `timerMatch && includes
'break'` / `timerMatch` classification chain of the source. -/
def toTimerEvent (a : Activity) : Option Timer :=
  if a.user = "cuckoo" ∨ a.user = "unknown" then none
  else
    match matchWork a.action with
    | some d => some ⟨a.time, a.time + d * 60000, .work, d, a.user⟩
    | none =>
      match matchBreak a.action with
      | some d => some ⟨a.time, a.time + d * 60000, .brk, d, a.user⟩
      | none =>
        match matchTimer a.action with
        | some d =>
          if containsSeq "break".toList a.action then
            some ⟨a.time, a.time + d * 60000, .brk, d, a.user⟩
          else
            some ⟨a.time, a.time + d * 60000, .work, d, a.user⟩
        | none => none

/-- Stable insertion used to model `Array.prototype.sort` (which is a stable
sort returning an ordering of the input consistent with the comparator). -/
def insertLe {α : Type} (le : α → α → Bool) (a : α) : List α → List α
  | [] => [a]
  | b :: bs => if le a b then a :: b :: bs else b :: insertLe le a bs

/-- Stable insertion sort: earlier input elements come first among
comparator-equal elements, as `Array.prototype.sort` guarantees. -/
def sortLe {α : Type} (le : α → α → Bool) (xs : List α) : List α :=
  xs.foldr (insertLe le) []

/-- Model of `extractTimerEvents`: classify each record, then sort by start
time ascending (`(a, b) => a.startTime - b.startTime`). -/
def extractTimerEvents (acts : List Activity) : List Timer :=
  sortLe (fun a b => a.startTime ≤ b.startTime) (acts.filterMap toTimerEvent)

/-- Model of `extractJoinEvents`: per-user list of times of non-system
records whose action text contains `'joined'`, in feed order. -/
def extractJoinEvents (acts : List Activity) (u : String) : List Int :=
  (acts.filter fun a =>
    a.user = u ∧ ¬(a.user = "cuckoo" ∨ a.user = "unknown") ∧
      containsSeq "joined".toList a.action).map (·.time)

/-! ### Presence windows (`leaderboard.js`, `buildPresenceWindows`) -/

/-- Five-minute grace period for timer attribution (`GRACE_PERIOD_MS`). -/
def GRACE_PERIOD_MS : Int := 5 * 60 * 1000

/-- Thirty-minute maximum gap for presence assumption (`MAX_GAP_MS`). -/
def MAX_GAP_MS : Int := 30 * 60 * 1000

/-- One presence snapshot row: timestamp (milliseconds) and the
semicolon-split user list. -/
structure Snapshot where
  time : Int
  users : List String
deriving DecidableEq, Repr

/-- A window as held during the build: `leaveTime` is `none` while open. -/
structure OWindow where
  joinTime : Int
  leaveTime : Option Int
deriving DecidableEq, Repr

/-- A closed window as returned by `buildPresenceWindows`: every open window
has been closed at `now` and flagged `stillPresent`. -/
structure Window where
  joinTime : Int
  leaveTime : Int
  stillPresent : Bool
deriving DecidableEq, Repr

/-- Fuel-indexed helper for `dedupFirst`; the list length is always enough
fuel, and the explicit fuel keeps the recursion structural. -/
def dedupFirstAux {α : Type} [DecidableEq α] : Nat → List α → List α
  | 0, _ => []
  | _, [] => []
  | f + 1, x :: xs => x :: dedupFirstAux f (xs.filter (· ≠ x))

/-- Keep the first occurrence of each element, dropping later duplicates:
the membership/iteration semantics of the JavaScript `Set` built from a
snapshot's user list. -/
def dedupFirst {α : Type} [DecidableEq α] (l : List α) : List α :=
  dedupFirstAux l.length l

/-- The non-empty user names of a snapshot
(`snapshot.users.split(';').filter(u => u)` — the `Set` adds nothing for
membership, which is all the builder consults). -/
def snapUsers (s : Snapshot) : List String :=
  s.users.filter (· ≠ "")

/-- The join-time computation of `buildPresenceWindows` for a user who has
just appeared: first precise feed join event lying in the window
`(prevTime, snapTime]` (or `≤ snapTime` when there is no previous snapshot),
otherwise one second after the previous snapshot when the gap is at most
`MAX_GAP_MS`, otherwise `MAX_GAP_MS` before the current snapshot; with no
previous snapshot the snapshot time itself. -/
def joinTimeFor (prev : Option (Int × List String)) (t : Int)
    (userJoins : List Int) : Int :=
  let found := userJoins.find? fun jt =>
    match prev with
    | some (pt, _) => decide (pt < jt ∧ jt ≤ t)
    | none => decide (jt ≤ t)
  match found with
  | some jt => jt
  | none =>
    match prev with
    | some (pt, _) => if t - pt ≤ MAX_GAP_MS then pt + 1000 else t - MAX_GAP_MS
    | none => t

/-- Close the first open window at one second before the snapshot
(`openWindow.leaveTime = snapshotTime - 1000`). -/
def closeFirstOpen (t : Int) : List OWindow → List OWindow
  | [] => []
  | w :: ws =>
    if w.leaveTime = none then { w with leaveTime := some (t - 1000) } :: ws
    else w :: closeFirstOpen t ws

/-- Fold state of the snapshot loop: the window dictionary (total function
with default `[]`), the insertion-ordered key list (`Object.keys`), and the
previous snapshot's time and (filtered) user list. -/
structure BState where
  windows : String → List OWindow
  seen : List String
  prev : Option (Int × List String)

/-- The users of the previous snapshot (`previousUsers`, empty initially). -/
def BState.prevUsers (st : BState) : List String :=
  (st.prev.map Prod.snd).getD []

/-- One iteration of the snapshot loop of `buildPresenceWindows`: open a
window for every user present now but not before (with `joinTimeFor`), close
the open window of every user present before but absent now, record
first-seen keys, and remember this snapshot. -/
def processSnapshot (joins : String → List Int) (st : BState) (s : Snapshot) :
    BState :=
  let t := s.time
  let cur := snapUsers s
  let w1 : String → List OWindow := fun u =>
    if u ∈ cur ∧ u ∉ st.prevUsers then
      st.windows u ++ [⟨joinTimeFor st.prev t (joins u), none⟩]
    else st.windows u
  let w2 : String → List OWindow := fun u =>
    if u ∈ st.prevUsers ∧ u ∉ cur then closeFirstOpen t (w1 u) else w1 u
  { windows := w2
    seen := st.seen ++ (dedupFirst cur).filter (· ∉ st.seen)
    prev := some (t, cur) }

/-- The initial fold state (`userWindows = {}`, `previousSnapshot = null`). -/
def initBState : BState := ⟨fun _ => [], [], none⟩

/-- The per-user window dictionary together with its key list, the return
value of `buildPresenceWindows`. -/
structure UserWindows where
  users : List String
  get : String → List Window

/-- Model of `buildPresenceWindows`: fold the snapshot loop, then close any
still-open window at `now` with `stillPresent = true`. `now` — the wall
clock read by `new Date()` at line 195 of the source — is an explicit
parameter of the embedding. -/
def buildPresenceWindows (presenceData : List Snapshot)
    (joins : String → List Int) (now : Int) : UserWindows :=
  let st := presenceData.foldl (processSnapshot joins) initBState
  { users := st.seen
    get := fun u => (st.windows u).map fun w =>
      ⟨w.joinTime, w.leaveTime.getD now, w.leaveTime.isNone⟩ }

/-! ### Attribution and aggregation (`leaderboard.js`) -/

/-- Model of `eligibleForTimerCount`: the user was present at the timer start
(`joinTime ≤ start ≤ leaveTime`) or joined within the grace period strictly
after the start. -/
def eligibleForTimerCount (uw : UserWindows) (user : String)
    (timerStartTime : Int) : Bool :=
  (uw.get user).any fun w =>
    decide ((w.joinTime ≤ timerStartTime ∧ timerStartTime ≤ w.leaveTime) ∨
      (timerStartTime < w.joinTime ∧ w.joinTime ≤ timerStartTime + GRACE_PERIOD_MS))

/-- The loop body of `calculateOverlap`: `overlapStart = max(join, start)`,
`overlapEnd = min(leave, end)`, accumulate when `overlapEnd > overlapStart`. -/
def overlapStep (timerStart timerEnd : Int) (acc : Int) (w : Window) : Int :=
  if max w.joinTime timerStart < min w.leaveTime timerEnd then
    acc + (min w.leaveTime timerEnd - max w.joinTime timerStart)
  else acc

/-- Millisecond overlap sum of `calculateOverlap` (before the division by
60000): positive parts of `min(leave, timerEnd) - max(join, timerStart)`. -/
def overlapMs (ws : List Window) (timerStart timerEnd : Int) : Int :=
  ws.foldl (overlapStep timerStart timerEnd) 0

/-- Model of `calculateOverlap`, in (exact rational) minutes. -/
def calculateOverlap (uw : UserWindows) (user : String)
    (timerStart timerEnd : Int) : ℚ :=
  (overlapMs (uw.get user) timerStart timerEnd : ℚ) / 60000

/-- Millisecond sum of `calculatePresenceTime`'s loop. -/
def presenceMs (ws : List Window) : Int :=
  ws.foldl (fun acc w => acc + (w.leaveTime - w.joinTime)) 0

/-- Model of `calculatePresenceTime`: total window length in minutes. -/
def calculatePresenceTime (ws : List Window) : ℚ :=
  (presenceMs ws : ℚ) / 60000

/-- Per-user statistics record (`userStats[user]` in `calculateUserStats`).
`firstSeen`/`lastSeen` hold the underlying millisecond values of the
serialised ISO timestamps. -/
structure UserStat where
  totalPresenceMinutes : ℚ
  totalWorkMinutes : ℚ
  totalBreakMinutes : ℚ
  pomodoroCount : Nat
  breakCount : Nat
  firstSeen : Option Int
  lastSeen : Option Int
  currentlyPresent : Bool
deriving DecidableEq, Repr

/-- The timer-processing step of `calculateUserStats`, for one user and one
timer: bump the count when eligible, and add the overlap minutes when they
are positive — two independent decisions in the source. -/
def statStep (uw : UserWindows) (user : String) (s : UserStat) (timer : Timer) :
    UserStat :=
  let s1 :=
    if eligibleForTimerCount uw user timer.startTime then
      match timer.type with
      | .work => { s with pomodoroCount := s.pomodoroCount + 1 }
      | .brk => { s with breakCount := s.breakCount + 1 }
    else s
  let o := calculateOverlap uw user timer.startTime timer.endTime
  if 0 < o then
    match timer.type with
    | .work => { s1 with totalWorkMinutes := s1.totalWorkMinutes + o }
    | .brk => { s1 with totalBreakMinutes := s1.totalBreakMinutes + o }
  else s1

/-- The initial statistics of one user (the first loop of
`calculateUserStats`). -/
def initStat (uw : UserWindows) (user : String) : UserStat :=
  let ws := uw.get user
  { totalPresenceMinutes := calculatePresenceTime ws
    totalWorkMinutes := 0
    totalBreakMinutes := 0
    pomodoroCount := 0
    breakCount := 0
    firstSeen := ws.head?.map (·.joinTime)
    lastSeen := ws.getLast?.map (·.leaveTime)
    currentlyPresent := ((ws.getLast?.map (·.stillPresent)).getD false) }

/-- All statistics of one user. In the source the timer loop is outer and the
user loop inner; since the body touches only `userStats[user]`, the two loop
orders compute the same dictionary, and the embedding folds the timers per
user. -/
def statsFor (uw : UserWindows) (timers : List Timer) (user : String) :
    UserStat :=
  timers.foldl (statStep uw user) (initStat uw user)

/-- Model of `calculateUserStats`: the association list over the window
dictionary's keys, in `Object.keys` order. -/
def calculateUserStats (uw : UserWindows) (timers : List Timer) :
    List (String × UserStat) :=
  uw.users.map fun u => (u, statsFor uw timers u)

/-- JavaScript `Math.round`: round half toward positive infinity. -/
def jsRound (q : ℚ) : Int := ⌊q + 1 / 2⌋

/-- One entry of the `ranked` intermediate array of `generateLeaderboard`:
the user's stats extended with the derived average fields. -/
structure RankedEntry where
  user : String
  stats : UserStat
  avgPomodoroMinutes : Int
  avgBreakMinutes : Int
deriving DecidableEq, Repr

/-- One record of the final `users` array (rounded presentation values). -/
structure LBUser where
  user : String
  currentlyPresent : Bool
  totalPresenceMinutes : Int
  totalWorkMinutes : Int
  totalBreakMinutes : Int
  pomodoroCount : Nat
  breakCount : Nat
  avgPomodoroMinutes : Int
  firstSeen : Option Int
  lastSeen : Option Int
deriving DecidableEq, Repr

/-- One entry of the `activityLog` array (`buildActivityLog`). -/
structure LogEntry where
  time : Int
  endTime : Int
  type : TType
  duration : Nat
  startedBy : String
  participants : List String
deriving DecidableEq, Repr

/-- The final leaderboard document. `generated` holds the millisecond value
of the serialised generation timestamp. -/
structure Leaderboard where
  generated : Int
  currentlyPresent : List String
  totalUsers : Nat
  totalPomodoros : Nat
  totalWorkMinutes : ℚ
  activityLog : List LogEntry
  users : List LBUser
deriving DecidableEq, Repr

/-- Model of `buildActivityLog`: per timer, the users eligible for its count,
sorted by start time descending. -/
def buildActivityLog (timers : List Timer) (uw : UserWindows) : List LogEntry :=
  sortLe (fun a b => b.time ≤ a.time)
    (timers.map fun t =>
      ⟨t.startTime, t.endTime, t.type, t.duration, t.startedBy,
        uw.users.filter fun u => eligibleForTimerCount uw u t.startTime⟩)

/-- The `ranked` array of `generateLeaderboard`: per-user entries with the
latest-snapshot presence override and the average fields, sorted by total
presence minutes descending (stable). -/
def rankedUsers (stats : List (String × UserStat)) (currentlyPresent : List String) :
    List RankedEntry :=
  sortLe (fun a b => b.stats.totalPresenceMinutes ≤ a.stats.totalPresenceMinutes)
    (stats.map fun p =>
      { user := p.1
        stats := { p.2 with currentlyPresent := p.1 ∈ currentlyPresent }
        avgPomodoroMinutes :=
          if 0 < p.2.pomodoroCount then
            jsRound (p.2.totalWorkMinutes / p.2.pomodoroCount)
          else 0
        avgBreakMinutes :=
          if 0 < p.2.breakCount then
            jsRound (p.2.totalBreakMinutes / p.2.breakCount)
          else 0 })

/-- Model of `generateLeaderboard`. `latestPresence` is the user list of the
latest presence snapshot (already semicolon-split); `now` is the wall clock
read for the `generated` field. -/
def generateLeaderboard (stats : List (String × UserStat))
    (latestPresence : List String) (timers : List Timer) (uw : UserWindows)
    (now : Int) : Leaderboard :=
  let currentlyPresent := latestPresence.filter (· ≠ "")
  let ranked := rankedUsers stats currentlyPresent
  { generated := now
    currentlyPresent := currentlyPresent
    totalUsers := ranked.length
    totalPomodoros := ranked.foldl (fun acc u => acc + u.stats.pomodoroCount) 0
    totalWorkMinutes := ranked.foldl (fun acc u => acc + u.stats.totalWorkMinutes) 0
    activityLog := buildActivityLog timers uw
    users := ranked.map fun u =>
      { user := u.user
        currentlyPresent := u.stats.currentlyPresent
        totalPresenceMinutes := jsRound u.stats.totalPresenceMinutes
        totalWorkMinutes := jsRound u.stats.totalWorkMinutes
        totalBreakMinutes := jsRound u.stats.totalBreakMinutes
        pomodoroCount := u.stats.pomodoroCount
        breakCount := u.stats.breakCount
        avgPomodoroMinutes := u.avgPomodoroMinutes
        firstSeen := u.stats.firstSeen
        lastSeen := u.stats.lastSeen } }

/-- Model of `main` on the three parsed log tables (the timer-snapshot table
is read but never used in the computation, so it is not a parameter; a
missing log file parses to the empty table). When both the activity and the
presence tables are empty, `main` logs a message and returns before
generating anything — modelled as `none`. All three `new Date()` calls of a
run are modelled by the single instant `now`. -/
def runMain (activities : List Activity) (presence : List Snapshot)
    (now : Int) : Option Leaderboard :=
  if presence = [] ∧ activities = [] then none
  else
    let timers := extractTimerEvents activities
    let joins := extractJoinEvents activities
    let uw := buildPresenceWindows presence joins now
    let stats := calculateUserStats uw timers
    let latestPresence := ((presence.getLast?.map Snapshot.users).getD [])
    some (generateLeaderboard stats latestPresence timers uw now)

/-! ### Invariant predicates for the window builder -/

/-- Strict lower bound against an optional previous leave time. -/
def lbLt : Option Int → Int → Prop
  | none, _ => True
  | some l, x => l < x

/-- Well-formedness of one user's window list during the build, relative to
the previous snapshot's time `pt`: windows are chained in strictly
increasing order (`… leave < next join`), every closed window satisfies
`join ≤ leave` with `leave + 1000 ≤ pt`, and an open window (if any) sits at
the end with `join ≤ pt`. -/
def WChain : Option Int → Int → List OWindow → Prop
  | _, _, [] => True
  | lb, pt, w :: ws =>
    lbLt lb w.joinTime ∧
      match w.leaveTime with
      | some le => w.joinTime ≤ le ∧ le + 1000 ≤ pt ∧ WChain (some le) pt ws
      | none => w.joinTime ≤ pt ∧ ws = []

/-- Chain invariant of a user's final (closed) window list: each window has
`join ≤ leave` and windows are pairwise disjoint in increasing order. -/
def FChain : Option Int → List Window → Prop
  | _, [] => True
  | lb, w :: ws =>
    lbLt lb w.joinTime ∧ w.joinTime ≤ w.leaveTime ∧ FChain (some w.leaveTime) ws

/-- Number of open (not yet closed) windows in a list. -/
def openCount (ws : List OWindow) : Nat :=
  ws.countP fun w => w.leaveTime.isNone

/-- Open-window bookkeeping invariant of the build: a user has exactly one
open window while listed in the previous snapshot and none otherwise. -/
def InvOpen (st : BState) : Prop :=
  ∀ u, openCount (st.windows u) = if u ∈ st.prevUsers then 1 else 0

/-- Chain invariant of the build state: before the first snapshot all window
lists are empty; afterwards every user's list is a well-formed chain
relative to the previous snapshot's time. -/
def InvW (st : BState) : Prop :=
  ∀ u,
    match st.prev with
    | none => st.windows u = []
    | some (pt, _) => WChain none pt (st.windows u)

/-- Chronological spacing of the snapshot log: consecutive timestamps at
least one second apart (the granularity of the builder's ±1-second
join/leave adjustments), continuing from an optional previous time. -/
def spacedOk : Option Int → List Snapshot → Bool
  | _, [] => true
  | none, s :: ss => spacedOk (some s.time) ss
  | some pt, s :: ss => decide (pt + 1000 ≤ s.time) && spacedOk (some s.time) ss

/-- The run instant `now` is not before the last snapshot. -/
def lastLe (presence : List Snapshot) (now : Int) : Bool :=
  match presence.getLast? with
  | some s => decide (s.time ≤ now)
  | none => true

/-- The last snapshot records nobody present (so the build closes every
window at a snapshot, never at `now`). -/
def lastUsersEmpty (presence : List Snapshot) : Bool :=
  match presence.getLast? with
  | some s => (snapUsers s).isEmpty
  | none => true

/-- Value of an optional lower bound, defaulting to `d`. -/
def lbval : Option Int → Int → Int
  | none, d => d
  | some l, _ => l

/-! ### Helper lemmas -/

theorem mem_insertLe {α : Type} (le : α → α → Bool) (a b : α) (l : List α) :
    b ∈ insertLe le a l ↔ b = a ∨ b ∈ l := by
  induction l with
  | nil => simp [insertLe]
  | cons c cs ih =>
    by_cases h : le a c = true <;> simp [insertLe, h, ih] <;> tauto

theorem mem_sortLe {α : Type} (le : α → α → Bool) (b : α) (l : List α) :
    b ∈ sortLe le l ↔ b ∈ l := by
  induction l with
  | nil => simp [sortLe]
  | cons c cs ih =>
    simp only [sortLe, List.foldr_cons] at *
    rw [mem_insertLe, ih, List.mem_cons]

theorem foldl_add_eq {α M : Type} [AddCommMonoid M] (g : α → M) (l : List α)
    (init : M) :
    l.foldl (fun acc x => acc + g x) init = init + (l.map g).sum := by
  induction l generalizing init with
  | nil => simp
  | cons a l ih => simp [ih, add_assoc]

theorem sum_insertLe {α M : Type} [AddCommMonoid M] (le : α → α → Bool)
    (g : α → M) (a : α) (l : List α) :
    ((insertLe le a l).map g).sum = g a + (l.map g).sum := by
  induction l with
  | nil => simp [insertLe]
  | cons c cs ih =>
    by_cases h : le a c = true <;> simp [insertLe, h, ih]
    rw [← add_assoc, ← add_assoc, add_comm (g c) (g a)]

theorem sum_sortLe {α M : Type} [AddCommMonoid M] (le : α → α → Bool)
    (g : α → M) (l : List α) :
    ((sortLe le l).map g).sum = (l.map g).sum := by
  induction l with
  | nil => rfl
  | cons c cs ih => simp only [sortLe, List.foldr_cons] at *; rw [sum_insertLe, ih]; simp

theorem length_insertLe {α : Type} (le : α → α → Bool) (a : α) (l : List α) :
    (insertLe le a l).length = l.length + 1 := by
  induction l with
  | nil => rfl
  | cons c cs ih => by_cases h : le a c = true <;> simp [insertLe, h, ih]

theorem length_sortLe {α : Type} (le : α → α → Bool) (l : List α) :
    (sortLe le l).length = l.length := by
  induction l with
  | nil => rfl
  | cons c cs ih => simp only [sortLe, List.foldr_cons] at *; rw [length_insertLe, ih]; simp

/-! ### C4 — gap protection -/

/-- The join-time search of the builder finds nothing when no precise join
event lies in the half-open window. -/
theorem joinTimeFor_no_event (pt : Int) (pus : List String) (t : Int)
    (js : List Int) (hnoj : ∀ jt ∈ js, ¬(pt < jt ∧ jt ≤ t)) :
    joinTimeFor (some (pt, pus)) t js =
      if t - pt ≤ MAX_GAP_MS then pt + 1000 else t - MAX_GAP_MS := by
  have hfind : (js.find? fun jt => decide (pt < jt ∧ jt ≤ t)) = none := by
    rw [List.find?_eq_none]
    intro jt hjt
    simpa using hnoj jt hjt
  simp only [joinTimeFor, hfind]

/-- Claim C4: when a user newly appears at a snapshot, no precise feed join
event for that user lies strictly after the previous snapshot's time and at or
before the current one, and the inter-snapshot gap exceeds 30 minutes, the
snapshot-loop step of `buildPresenceWindows` opens a window whose synthesized
join time is exactly `MAX_GAP_MS` (30 minutes) before the current snapshot. -/
theorem gap_protection_join_time (joins : String → List Int) (st : BState)
    (s : Snapshot) (u : String) (pt : Int) (pus : List String)
    (hprev : st.prev = some (pt, pus))
    (hold : u ∉ pus)
    (hcur : u ∈ snapUsers s)
    (hnoj : ∀ jt ∈ joins u, ¬(pt < jt ∧ jt ≤ s.time))
    (hgap : MAX_GAP_MS < s.time - pt) :
    (processSnapshot joins st s).windows u =
      st.windows u ++ [⟨s.time - MAX_GAP_MS, none⟩] := by
  have hpu : st.prevUsers = pus := by simp [BState.prevUsers, hprev]
  have hnotmem : u ∉ st.prevUsers := by rw [hpu]; exact hold
  have hjoin : joinTimeFor st.prev s.time (joins u) = s.time - MAX_GAP_MS := by
    rw [hprev, joinTimeFor_no_event pt pus s.time (joins u) hnoj, if_neg (by omega)]
  simp only [processSnapshot]
  rw [if_neg (by simp [hnotmem, hcur]), if_pos ⟨hcur, hnotmem⟩, hjoin]

/-- Witness for C4: two snapshots 40 minutes apart (the previous at time 0,
the current at 2400000 ms) and no feed join events synthesize a join exactly
30 minutes (1800000 ms) before the later snapshot, not one second after the
earlier one. -/
theorem gap_protection_join_time_witness :
    (processSnapshot (fun _ => []) ⟨fun _ => [], [], some (0, [])⟩
        ⟨2400000, ["b"]⟩).windows "b" = [⟨600000, none⟩] := by
  have h := gap_protection_join_time (fun _ => [])
    ⟨fun _ => [], [], some (0, [])⟩ ⟨2400000, ["b"]⟩ "b" 0 []
    rfl (by simp) (by decide) (by simp) (by decide)
  simpa using h

/-! ### C8 — timer event shape -/

/-- Every timer event produced by `toTimerEvent` satisfies
`endTime = startTime + duration` (in milliseconds). -/
theorem toTimerEvent_shape (a : Activity) (e : Timer)
    (h : toTimerEvent a = some e) :
    e.endTime = e.startTime + (e.duration : Int) * 60000 := by
  unfold toTimerEvent at h
  by_cases hu : a.user = "cuckoo" ∨ a.user = "unknown"
  · simp [hu] at h
  · simp only [hu, if_false] at h
    rcases hw : matchWork a.action with _ | d
    · rw [hw] at h
      rcases hb : matchBreak a.action with _ | d'
      · rw [hb] at h
        rcases ht : matchTimer a.action with _ | d''
        · rw [ht] at h; simp at h
        · rw [ht] at h
          dsimp only at h
          by_cases hbr : containsSeq "break".toList a.action = true
          · rw [if_pos hbr] at h
            simp only [Option.some.injEq] at h; subst h; rfl
          · rw [if_neg hbr] at h
            simp only [Option.some.injEq] at h; subst h; rfl
      · rw [hb] at h; simp only [Option.some.injEq] at h; subst h; rfl
    · rw [hw] at h; simp only [Option.some.injEq] at h; subst h; rfl

/-- Claim C8 (amended): every `TimerEvent` produced by `extractTimerEvents`
satisfies `endTime = startTime + duration·60000 ms`, hence
`startTime ≤ endTime`; the duration is a parsed digit string and therefore
nonnegative, but it can be zero (see the counterexample), so `duration > 0`
does not hold in general. -/
theorem timer_events_shape (acts : List Activity) (e : Timer)
    (h : e ∈ extractTimerEvents acts) :
    e.endTime = e.startTime + (e.duration : Int) * 60000 ∧
      e.startTime ≤ e.endTime := by
  rw [extractTimerEvents, mem_sortLe, List.mem_filterMap] at h
  obtain ⟨a, -, ha⟩ := h
  have hshape := toTimerEvent_shape a e ha
  refine ⟨hshape, ?_⟩
  rw [hshape]
  have : (0 : Int) ≤ (e.duration : Int) * 60000 := by positivity
  omega

/-- Witness for C8: a concrete 25-minute work session yields an event ending
exactly 1 500 000 ms after it starts. -/
theorem timer_events_shape_witness :
    (⟨7, 1500007, .work, 25, "alice"⟩ : Timer) ∈
        extractTimerEvents [⟨7, "alice", "started a 25 minute work session".toList⟩] ∧
      (1500007 : Int) = 7 + (25 : Nat) * 60000 ∧ (7 : Int) ≤ 1500007 := by
  refine ⟨by decide, ?_⟩
  have h := timer_events_shape
    [⟨7, "alice", "started a 25 minute work session".toList⟩]
    ⟨7, 1500007, .work, 25, "alice"⟩ (by decide)
  simpa using h

/-- Counterexample for C8 as stated: the action text `started a 0 minute
work session` produces a timer event with `duration = 0`, so the claimed
`duration > 0` fails. -/
theorem timer_duration_zero_counterexample :
    (extractTimerEvents [⟨5, "alice", "started a 0 minute work session".toList⟩]).map
        Timer.duration = [0] := by
  decide

/-! ### C10 — attribution ignores who started a timer -/

/-- Two timer events that agree on everything except (possibly) the
`startedBy` field. -/
def sameTiming (a b : Timer) : Prop :=
  a.startTime = b.startTime ∧ a.endTime = b.endTime ∧ a.type = b.type ∧
    a.duration = b.duration

theorem statStep_sameTiming (uw : UserWindows) (u : String) (s : UserStat)
    (a b : Timer) (h : sameTiming a b) :
    statStep uw u s a = statStep uw u s b := by
  obtain ⟨h1, h2, h3, -⟩ := h
  simp only [statStep, h1, h2, h3]

theorem foldl_statStep_sameTiming (uw : UserWindows) (u : String)
    {l1 l2 : List Timer} (h : List.Forall₂ sameTiming l1 l2) :
    ∀ s : UserStat, l1.foldl (statStep uw u) s = l2.foldl (statStep uw u) s := by
  induction h with
  | nil => intro s; rfl
  | cons ha hl ih =>
    intro s
    simp only [List.foldl_cons]
    rw [statStep_sameTiming uw u s _ _ ha]
    exact ih _

/-- Claim C10: `calculateUserStats` never reads `startedBy` — two timer lists
that agree except in who started each timer yield identical statistics for
every user. -/
theorem stats_ignore_startedBy (uw : UserWindows) (l1 l2 : List Timer)
    (h : List.Forall₂ sameTiming l1 l2) :
    calculateUserStats uw l1 = calculateUserStats uw l2 := by
  unfold calculateUserStats
  congr 1
  funext u
  unfold statsFor
  rw [foldl_statStep_sameTiming uw u h]

/-- Witness for C10: relabelling the starter of a concrete timer leaves the
computed statistics unchanged. -/
theorem stats_ignore_startedBy_witness :
    calculateUserStats ⟨["a"], fun _ => [⟨0, 1500000, false⟩]⟩
        [⟨0, 600000, .work, 10, "x"⟩] =
      calculateUserStats ⟨["a"], fun _ => [⟨0, 1500000, false⟩]⟩
        [⟨0, 600000, .work, 10, "y"⟩] :=
  stats_ignore_startedBy _ _ _
    (List.Forall₂.cons ⟨rfl, rfl, rfl, rfl⟩ List.Forall₂.nil)

/-! ### C5 — eligibility and minute attribution -/

theorem overlapStep_shift (ts te acc : Int) (w : Window) :
    overlapStep ts te acc w = acc + overlapStep ts te 0 w := by
  unfold overlapStep
  split <;> omega

theorem overlapMs_foldl_acc (ws : List Window) (ts te : Int) :
    ∀ acc : Int,
      ws.foldl (overlapStep ts te) acc = acc + overlapMs ws ts te := by
  induction ws with
  | nil => intro acc; simp [overlapMs]
  | cons w ws ih =>
    intro acc
    have h1 := ih (overlapStep ts te acc w)
    have h2 := ih (overlapStep ts te 0 w)
    simp only [overlapMs, List.foldl_cons] at *
    rw [h1, h2, overlapStep_shift]
    omega

theorem overlapStep_zero_nonneg (ts te : Int) (w : Window) :
    0 ≤ overlapStep ts te 0 w := by
  unfold overlapStep
  split <;> omega

theorem overlapMs_nonneg (ws : List Window) (ts te : Int) :
    0 ≤ overlapMs ws ts te := by
  induction ws with
  | nil => simp [overlapMs]
  | cons w ws ih =>
    have h := overlapMs_foldl_acc ws ts te (overlapStep ts te 0 w)
    have h2 := overlapStep_zero_nonneg ts te w
    simp only [overlapMs, List.foldl_cons] at *
    rw [overlapStep_shift, zero_add, h]
    omega

theorem calculateOverlap_nonneg (uw : UserWindows) (u : String) (ts te : Int) :
    0 ≤ calculateOverlap uw u ts te := by
  unfold calculateOverlap
  have := overlapMs_nonneg (uw.get u) ts te
  positivity

/-- The minutes added by one timer, with no reference to eligibility. -/
def overlapTerm (uw : UserWindows) (u : String) (ty : TType) (t : Timer) : ℚ :=
  if t.type = ty then calculateOverlap uw u t.startTime t.endTime else 0

/-- The count added by one timer: 1 exactly when eligible and of the right
type. -/
def countTerm (uw : UserWindows) (u : String) (ty : TType) (t : Timer) : Nat :=
  if t.type = ty ∧ eligibleForTimerCount uw u t.startTime = true then 1 else 0

theorem statStep_fields (uw : UserWindows) (u : String) (s : UserStat)
    (t : Timer) :
    (statStep uw u s t).totalWorkMinutes =
        s.totalWorkMinutes + overlapTerm uw u .work t ∧
      (statStep uw u s t).totalBreakMinutes =
        s.totalBreakMinutes + overlapTerm uw u .brk t ∧
      (statStep uw u s t).pomodoroCount =
        s.pomodoroCount + countTerm uw u .work t ∧
      (statStep uw u s t).breakCount =
        s.breakCount + countTerm uw u .brk t ∧
      (statStep uw u s t).totalPresenceMinutes = s.totalPresenceMinutes ∧
      (statStep uw u s t).firstSeen = s.firstSeen ∧
      (statStep uw u s t).lastSeen = s.lastSeen ∧
      (statStep uw u s t).currentlyPresent = s.currentlyPresent := by
  have hnn := calculateOverlap_nonneg uw u t.startTime t.endTime
  by_cases ho : 0 < calculateOverlap uw u t.startTime t.endTime
  · rcases ht : t.type <;>
      by_cases he : eligibleForTimerCount uw u t.startTime = true <;>
      simp [statStep, overlapTerm, countTerm, ht, he, ho]
  · have h0 : calculateOverlap uw u t.startTime t.endTime = 0 :=
      le_antisymm (not_lt.mp ho) hnn
    rcases ht : t.type <;>
      by_cases he : eligibleForTimerCount uw u t.startTime = true <;>
      simp [statStep, overlapTerm, countTerm, ht, he, ho, h0]

theorem statsFor_foldl (uw : UserWindows) (u : String) (timers : List Timer) :
    ∀ s : UserStat,
      (timers.foldl (statStep uw u) s).totalWorkMinutes =
          s.totalWorkMinutes + (timers.map (overlapTerm uw u .work)).sum ∧
        (timers.foldl (statStep uw u) s).totalBreakMinutes =
          s.totalBreakMinutes + (timers.map (overlapTerm uw u .brk)).sum ∧
        (timers.foldl (statStep uw u) s).pomodoroCount =
          s.pomodoroCount + (timers.map (countTerm uw u .work)).sum ∧
        (timers.foldl (statStep uw u) s).breakCount =
          s.breakCount + (timers.map (countTerm uw u .brk)).sum ∧
        (timers.foldl (statStep uw u) s).totalPresenceMinutes =
          s.totalPresenceMinutes ∧
        (timers.foldl (statStep uw u) s).firstSeen = s.firstSeen ∧
        (timers.foldl (statStep uw u) s).lastSeen = s.lastSeen ∧
        (timers.foldl (statStep uw u) s).currentlyPresent =
          s.currentlyPresent := by
  induction timers with
  | nil => intro s; simp
  | cons t ts ih =>
    intro s
    obtain ⟨w1, b1, p1, c1, m1, f1, l1, cp1⟩ := ih (statStep uw u s t)
    obtain ⟨w2, b2, p2, c2, m2, f2, l2, cp2⟩ := statStep_fields uw u s t
    simp only [List.foldl_cons, List.map_cons, List.sum_cons]
    rw [w1, w2, b1, b2, p1, p2, c1, c2, m1, m2, f1, f2, l1, l2, cp1, cp2]
    refine ⟨by ring, by ring, by omega, by omega, rfl, rfl, rfl, rfl⟩

theorem sum_map_ite_filter {α : Type} (p : α → Prop) [DecidablePred p]
    (f : α → ℚ) (l : List α) :
    (l.map fun x => if p x then f x else 0).sum =
      ((l.filter fun x => decide (p x)).map f).sum := by
  induction l with
  | nil => rfl
  | cons a l ih =>
    by_cases h : p a <;> simp [h, ih]

theorem sum_map_ite_length {α : Type} (p : α → Prop) [DecidablePred p]
    (l : List α) :
    (l.map fun x => if p x then (1 : Nat) else 0).sum =
      (l.filter fun x => decide (p x)).length := by
  induction l with
  | nil => rfl
  | cons a l ih =>
    by_cases h : p a
    · simp [h, ih]; omega
    · simp [h, ih]

/-- Claim C5: `eligibleForTimerCount` is true exactly when some window of the
user contains the timer start or some window's join time falls in the
5-minute grace interval strictly after it; and in `calculateUserStats` this
eligibility decision affects only the pomodoro/break counts — the work/break
minute totals are the plain sums of `calculateOverlap` over the timers of the
matching type, with no reference to eligibility, and the presence total is
untouched by the timer loop. -/
theorem eligibility_counts_overlap_minutes (uw : UserWindows) (user : String)
    (timers : List Timer) (ts : Int) :
    calculateUserStats uw timers = uw.users.map (fun u => (u, statsFor uw timers u)) ∧
    (eligibleForTimerCount uw user ts = true ↔
        ∃ w ∈ uw.get user,
          (w.joinTime ≤ ts ∧ ts ≤ w.leaveTime) ∨
            (ts < w.joinTime ∧ w.joinTime ≤ ts + GRACE_PERIOD_MS)) ∧
      (statsFor uw timers user).totalWorkMinutes =
        (((timers.filter fun t => decide (t.type = .work)).map fun t =>
            calculateOverlap uw user t.startTime t.endTime).sum) ∧
      (statsFor uw timers user).totalBreakMinutes =
        (((timers.filter fun t => decide (t.type = .brk)).map fun t =>
            calculateOverlap uw user t.startTime t.endTime).sum) ∧
      (statsFor uw timers user).pomodoroCount =
        ((timers.filter fun t =>
            decide (t.type = .work ∧
              eligibleForTimerCount uw user t.startTime = true)).length) ∧
      (statsFor uw timers user).breakCount =
        ((timers.filter fun t =>
            decide (t.type = .brk ∧
              eligibleForTimerCount uw user t.startTime = true)).length) ∧
      (statsFor uw timers user).totalPresenceMinutes =
        calculatePresenceTime (uw.get user) := by
  obtain ⟨w1, b1, p1, c1, m1, -, -, -⟩ :=
    statsFor_foldl uw user timers (initStat uw user)
  have how : (fun x : Timer =>
      if x.type = TType.work then calculateOverlap uw user x.startTime x.endTime
      else 0) = overlapTerm uw user .work := rfl
  have hob : (fun x : Timer =>
      if x.type = TType.brk then calculateOverlap uw user x.startTime x.endTime
      else 0) = overlapTerm uw user .brk := rfl
  have hcw : (fun x : Timer =>
      if x.type = TType.work ∧ eligibleForTimerCount uw user x.startTime = true
      then (1 : Nat) else 0) = countTerm uw user .work := rfl
  have hcb : (fun x : Timer =>
      if x.type = TType.brk ∧ eligibleForTimerCount uw user x.startTime = true
      then (1 : Nat) else 0) = countTerm uw user .brk := rfl
  refine ⟨rfl, ?_, ?_, ?_, ?_, ?_, ?_⟩
  · simp only [eligibleForTimerCount, List.any_eq_true, decide_eq_true_eq]
  · have h := sum_map_ite_filter (fun t : Timer => t.type = .work)
      (fun t => calculateOverlap uw user t.startTime t.endTime) timers
    rw [how] at h
    simp only [statsFor]
    rw [w1, ← h]
    simp [initStat]
  · have h := sum_map_ite_filter (fun t : Timer => t.type = .brk)
      (fun t => calculateOverlap uw user t.startTime t.endTime) timers
    rw [hob] at h
    simp only [statsFor]
    rw [b1, ← h]
    simp [initStat]
  · have h := sum_map_ite_length (fun t : Timer =>
      t.type = .work ∧ eligibleForTimerCount uw user t.startTime = true) timers
    rw [hcw] at h
    simp only [statsFor]
    rw [p1, ← h]
    simp [initStat]
  · have h := sum_map_ite_length (fun t : Timer =>
      t.type = .brk ∧ eligibleForTimerCount uw user t.startTime = true) timers
    rw [hcb] at h
    simp only [statsFor]
    rw [c1, ← h]
    simp [initStat]
  · simp only [statsFor]
    rw [m1]
    rfl

/-! ### C2 — dedup key persistence round trip -/

theorem natDigitsRev_lt_ten (f n : Nat) : ∀ d ∈ natDigitsRev f n, d < 10 := by
  induction f generalizing n with
  | zero => intro d hd; simp [natDigitsRev] at hd
  | succ f ih =>
    intro d hd
    unfold natDigitsRev at hd
    by_cases h : n < 10
    · rw [if_pos h] at hd
      simp at hd
      omega
    · rw [if_neg h] at hd
      rcases List.mem_cons.mp hd with h1 | h1
      · omega
      · exact ih (n / 10) d h1

theorem digit_char_toNat (d : Nat) (h : d < 10) :
    (Char.ofNat (48 + d)).toNat = 48 + d := by
  interval_cases d <;> decide

theorem charsToNat_append_one (xs : List Char) (c : Char) :
    charsToNat (xs ++ [c]) = 10 * charsToNat xs + (c.toNat - 48) := by
  unfold charsToNat
  rw [List.foldl_append]
  rfl

theorem charsToNat_digits (f n : Nat) (h : n < f) :
    charsToNat (((natDigitsRev f n).reverse).map
      (fun d => Char.ofNat (48 + d))) = n := by
  induction f generalizing n with
  | zero => omega
  | succ f ih =>
    unfold natDigitsRev
    by_cases hn : n < 10
    · rw [if_pos hn]
      simp only [List.reverse_cons, List.reverse_nil, List.nil_append,
        List.map_cons, List.map_nil]
      unfold charsToNat
      simp only [List.foldl_cons, List.foldl_nil]
      rw [digit_char_toNat n hn]
      omega
    · rw [if_neg hn]
      have hdiv : n / 10 < f := by
        have := Nat.div_lt_self (show 0 < n by omega) (show 1 < 10 by omega)
        omega
      simp only [List.reverse_cons, List.map_append, List.map_cons,
        List.map_nil]
      rw [charsToNat_append_one, ih (n / 10) hdiv,
        digit_char_toNat (n % 10) (by omega)]
      omega

theorem charsToNat_natToChars (n : Nat) : charsToNat (natToChars n) = n :=
  charsToNat_digits (n + 1) n (Nat.lt_succ_self n)

theorem natToChars_no_comma (n : Nat) : ',' ∉ natToChars n := by
  intro hmem
  unfold natToChars at hmem
  rw [List.mem_map] at hmem
  obtain ⟨d, hd, hc⟩ := hmem
  have hd10 : d < 10 := natDigitsRev_lt_ten (n + 1) n d (List.mem_reverse.mp hd)
  have := digit_char_toNat d hd10
  rw [hc] at this
  simp at this
  omega

theorem mapComma_no_comma (l : List Char) : ',' ∉ mapComma l := by
  intro hmem
  unfold mapComma at hmem
  rw [List.mem_map] at hmem
  obtain ⟨c, -, hc⟩ := hmem
  by_cases h : c = ',' <;> simp [h] at hc

theorem mapComma_eq_self (l : List Char) (h : ',' ∉ l) : mapComma l = l := by
  induction l with
  | nil => rfl
  | cons c cs ih =>
    unfold mapComma at *
    simp only [List.map_cons]
    have hc : c ≠ ',' := fun hc => h (hc ▸ List.mem_cons_self c cs)
    rw [if_neg hc, ih (fun hm => h (List.mem_cons_of_mem c hm))]

theorem splitComma_cons (c : Char) (cs : List Char) :
    splitComma (c :: cs) =
      if c = ',' then [] :: splitComma cs
      else
        match splitComma cs with
        | [] => [[c]]
        | f :: r => (c :: f) :: r := rfl

theorem splitComma_no_comma (f : List Char) (hf : ',' ∉ f) :
    splitComma f = [f] := by
  induction f with
  | nil => rfl
  | cons c cs ih =>
    have hc : c ≠ ',' := fun h => hf (h ▸ List.mem_cons_self c cs)
    have hcs := ih (fun hm => hf (List.mem_cons_of_mem c hm))
    rw [splitComma_cons, if_neg hc, hcs]

theorem splitComma_append (f rest : List Char) (hf : ',' ∉ f) :
    splitComma (f ++ ',' :: rest) = f :: splitComma rest := by
  induction f with
  | nil =>
    rw [List.nil_append, splitComma_cons, if_pos rfl]
  | cons c cs ih =>
    have hc : c ≠ ',' := fun h => hf (h ▸ List.mem_cons_self c cs)
    have hcs := ih (fun hm => hf (List.mem_cons_of_mem c hm))
    rw [List.cons_append, splitComma_cons, if_neg hc, hcs]

/-- Claim C2 (amended): the dedup key survives the persist-and-reparse round
trip for every record whose action text — like its user and time-ago fields —
contains no comma. (The counterexample shows the claim fails for actions that
do contain a comma: the persisted copy carries the semicolon-escaped action,
and the key is rebuilt from that escaped text.) -/
theorem dedup_key_roundtrip (scrapeMs : Nat) (r : SRecord)
    (hu : ',' ∉ r.user) (ht : ',' ∉ r.timeAgo) (ha : ',' ∉ r.action) :
    persistedLineKey (persistLine scrapeMs r) = some (scrapeDedupKey r) := by
  unfold persistLine persistedLineKey
  simp only [List.cons_append, List.append_assoc]
  rw [splitComma_append _ _ (natToChars_no_comma r.estMs),
    splitComma_append _ _ (natToChars_no_comma scrapeMs),
    splitComma_append _ _ hu,
    splitComma_append _ _ (mapComma_no_comma r.action),
    splitComma_no_comma _ ht]
  rw [if_pos (by simp)]
  simp only [List.getD_cons_zero, List.getD_cons_succ]
  rw [charsToNat_natToChars, mapComma_eq_self r.action ha]
  simp [scrapeDedupKey]

/-- Witness for C2 (amended) at a concrete comma-free record. -/
theorem dedup_key_roundtrip_witness :
    persistedLineKey (persistLine 1000
        ⟨7200000, "alice".toList, "started a 25 minute work session".toList,
          "5 min ago".toList⟩) =
      some (scrapeDedupKey
        ⟨7200000, "alice".toList, "started a 25 minute work session".toList,
          "5 min ago".toList⟩) :=
  dedup_key_roundtrip 1000 _ (by decide) (by decide) (by decide)

/-- Counterexample for C2 as stated: for the record with action `a,b` the
persisted line stores `a;b`, and the key re-derived from the line differs
from the key computed at scrape time. -/
theorem dedup_key_comma_counterexample :
    persistedLineKey (persistLine 0 ⟨0, "u".toList, "a,b".toList, "m".toList⟩) ≠
      some (scrapeDedupKey ⟨0, "u".toList, "a,b".toList, "m".toList⟩) := by
  decide

/-! ### C7 — timer-event classification -/

theorem numMinuteScan_mono (cont : List Char → Bool) (cs : List Char)
    (h : (numMinuteScan cont cs).isSome = true) :
    (numMinuteScan (fun _ => true) cs).isSome = true := by
  induction cs with
  | nil => simp [numMinuteScan] at h
  | cons c cs ih =>
    rw [numMinuteScan] at h ⊢
    dsimp only at h ⊢
    by_cases hn : c = '\n'
    · rw [if_pos hn] at h
      simp at h
    · rw [if_neg hn] at h ⊢
      by_cases hd : c.isDigit = true
      · rw [if_pos hd] at h ⊢
        by_cases hm : seqStartsCI "minute".toList
            (((c :: cs).dropWhile Char.isDigit).dropWhile fun x => jsSpace x) = true
        · have hcond : (seqStartsCI "minute".toList
              (((c :: cs).dropWhile Char.isDigit).dropWhile fun x => jsSpace x) &&
              true) = true := by rw [hm]; rfl
          rw [if_pos hcond]
          simp
        · have hgu : ¬((seqStartsCI "minute".toList
              (((c :: cs).dropWhile Char.isDigit).dropWhile fun x => jsSpace x) &&
              cont ((((c :: cs).dropWhile Char.isDigit).dropWhile
                fun x => jsSpace x).drop 6)) = true) := by
            intro hc
            rw [Bool.and_eq_true] at hc
            exact hm hc.1
          have hpl : ¬((seqStartsCI "minute".toList
              (((c :: cs).dropWhile Char.isDigit).dropWhile fun x => jsSpace x) &&
              true) = true) := by
            intro hc
            rw [Bool.and_eq_true] at hc
            exact hm hc.1
          rw [if_neg hgu] at h
          rw [if_neg hpl]
          exact ih h
      · rw [if_neg hd] at h ⊢
        exact ih h

theorem startedScan_mono (cont : List Char → Bool) (s : List Char)
    (h : (startedScan cont s).isSome = true) :
    (startedScan (fun _ => true) s).isSome = true := by
  induction s with
  | nil => simp [startedScan] at h
  | cons c cs ih =>
    rw [startedScan] at h ⊢
    by_cases hs : seqStartsCI "started".toList (c :: cs) = true
    · rw [if_pos hs] at h ⊢
      rcases hg : numMinuteScan cont ((c :: cs).drop 7) with _ | n
      · rw [hg] at h
        dsimp only at h
        rcases hp : numMinuteScan (fun _ => true) ((c :: cs).drop 7) with _ | m
        · dsimp only
          exact ih h
        · rfl
      · have hps : (numMinuteScan (fun _ => true) ((c :: cs).drop 7)).isSome = true :=
          numMinuteScan_mono cont _ (by rw [hg]; rfl)
        rcases hp : numMinuteScan (fun _ => true) ((c :: cs).drop 7) with _ | m
        · rw [hp] at hps
          simp at hps
        · rfl
    · rw [if_neg hs] at h ⊢
      exact ih h

theorem matchWork_none (s : List Char) (h : matchTimer s = none) :
    matchWork s = none := by
  rcases hw : matchWork s with _ | d
  · rfl
  · have := startedScan_mono (searchCI "work".toList) s (by rw [matchWork] at hw; rw [hw]; simp)
    rw [matchTimer] at h
    rw [h] at this
    simp at this

theorem matchBreak_none (s : List Char) (h : matchTimer s = none) :
    matchBreak s = none := by
  rcases hb : matchBreak s with _ | d
  · rfl
  · have := startedScan_mono (searchCI "break".toList) s (by rw [matchBreak] at hb; rw [hb]; simp)
    rw [matchTimer] at h
    rw [h] at this
    simp at this

/-- Claim C7 (amended): `extractTimerEvents` drops every record of a reserved
system actor (`cuckoo`, `unknown`); a record whose text has no
`started … N minute` phrasing produces no event and no error; a remaining
record with such phrasing produces exactly one event, classified `work`
whenever the work-pattern matches — the work keyword takes precedence even
when a break keyword is also present (see the counterexample) — otherwise
`break` when the break-pattern matches or the text contains `break`, and
`work` as the fallback. -/
theorem extract_timer_classification (a : Activity) (l : List Activity) :
    (a.user = "cuckoo" ∨ a.user = "unknown" →
        extractTimerEvents (a :: l) = extractTimerEvents l) ∧
      (matchTimer a.action = none →
        extractTimerEvents (a :: l) = extractTimerEvents l) ∧
      (∀ d : Nat, ¬(a.user = "cuckoo" ∨ a.user = "unknown") →
        matchTimer a.action = some d →
        (extractTimerEvents [a]).map Timer.type =
            [if (matchWork a.action).isSome = true then TType.work
             else if ((matchBreak a.action).isSome ||
                 containsSeq "break".toList a.action) = true then TType.brk
             else TType.work] ∧
          (extractTimerEvents [a]).length = 1) := by
  refine ⟨?_, ?_, ?_⟩
  · intro hres
    have : toTimerEvent a = none := by simp [toTimerEvent, hres]
    simp [extractTimerEvents, this]
  · intro hmt
    have : toTimerEvent a = none := by
      simp [toTimerEvent, matchWork_none a.action hmt,
        matchBreak_none a.action hmt, hmt]
    simp [extractTimerEvents, this]
  · intro d hres hmt
    rcases hw : matchWork a.action with _ | dw
    · rcases hb : matchBreak a.action with _ | db
      · by_cases hbr : containsSeq "break".toList a.action = true
        · have hbr' : containsSeq ['b', 'r', 'e', 'a', 'k'] a.action = true := hbr
          have : toTimerEvent a = some ⟨a.time, a.time + d * 60000, .brk, d, a.user⟩ := by
            simp [toTimerEvent, hres, hw, hb, hmt, hbr']
          simp [extractTimerEvents, this, sortLe, insertLe, hw, hb, hbr']
        · have hbr' : containsSeq ['b', 'r', 'e', 'a', 'k'] a.action = false := by
            have hx : containsSeq "break".toList a.action = false := by
              rwa [Bool.not_eq_true] at hbr
            exact hx
          have : toTimerEvent a = some ⟨a.time, a.time + d * 60000, .work, d, a.user⟩ := by
            simp [toTimerEvent, hres, hw, hb, hmt, hbr']
          simp [extractTimerEvents, this, sortLe, insertLe, hw, hb, hbr']
      · have : toTimerEvent a = some ⟨a.time, a.time + db * 60000, .brk, db, a.user⟩ := by
          simp [toTimerEvent, hres, hw, hb]
        simp [extractTimerEvents, this, sortLe, insertLe, hw, hb]
    · have : toTimerEvent a = some ⟨a.time, a.time + dw * 60000, .work, dw, a.user⟩ := by
        simp [toTimerEvent, hres, hw]
      simp [extractTimerEvents, this, sortLe, insertLe, hw]

/-- Witness for C7 (amended) on concrete records: a system-user record is
dropped, unrecognized text yields no event, and a plain work session yields
exactly one work event. -/
theorem extract_timer_classification_witness :
    extractTimerEvents [⟨0, "cuckoo", "started 5 minute".toList⟩] =
        extractTimerEvents [] ∧
      extractTimerEvents [⟨0, "alice", "hello there".toList⟩] =
        extractTimerEvents [] ∧
      (extractTimerEvents
          [⟨0, "alice", "started a 25 minute work session".toList⟩]).map
        Timer.type = [TType.work] := by
  refine ⟨(extract_timer_classification ⟨0, "cuckoo", "started 5 minute".toList⟩ []).1
      (Or.inl rfl),
    (extract_timer_classification ⟨0, "alice", "hello there".toList⟩ []).2.1
      (by decide), ?_⟩
  have h := (extract_timer_classification
      ⟨0, "alice", "started a 25 minute work session".toList⟩ []).2.2 25
      (by decide) (by decide)
  rw [if_pos (by decide)] at h
  exact h.1

/-- Counterexample for C7 as stated: in `started 10 minute break then work
later` an explicit break keyword is present, yet the event is classified
`work`, because the source tests the work pattern first. -/
theorem break_keyword_not_break_counterexample :
    containsSeq "break".toList "started 10 minute break then work later".toList = true ∧
      (extractTimerEvents
          [⟨0, "alice", "started 10 minute break then work later".toList⟩]).map
        Timer.type = [TType.work] := by
  decide

/-! ### Window-builder invariants (machinery for C3, C6, C1) -/

theorem prevUsers_processSnapshot (joins : String → List Int) (st : BState)
    (s : Snapshot) :
    (processSnapshot joins st s).prevUsers = snapUsers s := rfl

theorem prev_processSnapshot (joins : String → List Int) (st : BState)
    (s : Snapshot) :
    (processSnapshot joins st s).prev = some (s.time, snapUsers s) := rfl

/-- Case characterization of one snapshot step on one user's window list. -/
theorem processSnapshot_windows (joins : String → List Int) (st : BState)
    (s : Snapshot) (u : String) :
    (processSnapshot joins st s).windows u =
      if u ∈ snapUsers s ∧ u ∉ st.prevUsers then
        st.windows u ++ [⟨joinTimeFor st.prev s.time (joins u), none⟩]
      else if u ∈ st.prevUsers ∧ u ∉ snapUsers s then
        closeFirstOpen s.time (st.windows u)
      else st.windows u := by
  by_cases h1 : u ∈ snapUsers s ∧ u ∉ st.prevUsers
  · have h2 : ¬(u ∈ st.prevUsers ∧ u ∉ snapUsers s) := fun h => h.2 h1.1
    simp only [processSnapshot, if_pos h1, if_neg h2]
  · by_cases h2 : u ∈ st.prevUsers ∧ u ∉ snapUsers s
    · simp only [processSnapshot, if_pos h2, if_neg h1]
    · simp only [processSnapshot, if_neg h1, if_neg h2]

theorem openCount_nil : openCount [] = 0 := rfl

theorem openCount_append (ws1 ws2 : List OWindow) :
    openCount (ws1 ++ ws2) = openCount ws1 + openCount ws2 :=
  List.countP_append _ _ _

theorem openCount_closeFirstOpen (t : Int) (ws : List OWindow) :
    openCount (closeFirstOpen t ws) = openCount ws - 1 := by
  induction ws with
  | nil => rfl
  | cons w ws ih =>
    by_cases h : w.leaveTime = none
    · simp only [closeFirstOpen, if_pos h, openCount, List.countP_cons, h]
      simp
    · simp only [closeFirstOpen, if_neg h, openCount, List.countP_cons] at *
      have : (Option.isNone w.leaveTime) = false := by
        rcases hw : w.leaveTime with _ | le
        · exact absurd hw h
        · rfl
      rw [this] at *
      simp at *
      omega

theorem initBState_InvOpen : InvOpen initBState := by
  intro u
  simp [initBState, BState.prevUsers, openCount]

theorem processSnapshot_InvOpen (joins : String → List Int) (st : BState)
    (s : Snapshot) (h : InvOpen st) : InvOpen (processSnapshot joins st s) := by
  intro u
  rw [processSnapshot_windows, prevUsers_processSnapshot]
  by_cases h1 : u ∈ snapUsers s ∧ u ∉ st.prevUsers
  · rw [if_pos h1, openCount_append, h u, if_neg h1.2, if_pos h1.1]
    rfl
  · rw [if_neg h1]
    by_cases h2 : u ∈ st.prevUsers ∧ u ∉ snapUsers s
    · rw [if_pos h2, openCount_closeFirstOpen, h u, if_pos h2.1, if_neg h2.2]
    · rw [if_neg h2, h u]
      by_cases hc : u ∈ snapUsers s
      · have hp : u ∈ st.prevUsers := by
          by_contra hp
          exact h1 ⟨hc, hp⟩
        rw [if_pos hp, if_pos hc]
      · have hp : u ∉ st.prevUsers := by
          intro hp
          exact h2 ⟨hp, hc⟩
        rw [if_neg hp, if_neg hc]

theorem foldl_InvOpen (joins : String → List Int) (ps : List Snapshot) :
    ∀ st : BState, InvOpen st →
      InvOpen (ps.foldl (processSnapshot joins) st) := by
  induction ps with
  | nil => intro st h; exact h
  | cons s ss ih =>
    intro st h
    exact ih _ (processSnapshot_InvOpen joins st s h)

theorem foldl_prev (joins : String → List Int) (ps : List Snapshot) :
    ∀ st : BState,
      (ps.foldl (processSnapshot joins) st).prev =
        match ps.getLast? with
        | some s => some (s.time, snapUsers s)
        | none => st.prev := by
  induction ps with
  | nil => intro st; rfl
  | cons s ss ih =>
    intro st
    rw [List.foldl_cons, ih]
    rcases ss with _ | ⟨s2, ss2⟩
    · simp [prev_processSnapshot]
    · rw [List.getLast?_cons_cons]
      rcases hgl : (s2 :: ss2).getLast? with _ | s3
      · simp at hgl
      · rfl

theorem WChain_mono (pt pt' : Int) (hle : pt ≤ pt') :
    ∀ (lb : Option Int) (ws : List OWindow), WChain lb pt ws →
      WChain lb pt' ws := by
  intro lb ws
  induction ws generalizing lb with
  | nil => intro h; trivial
  | cons w ws ih =>
    intro h
    obtain ⟨hlb, hrest⟩ := h
    refine ⟨hlb, ?_⟩
    rcases hw : w.leaveTime with _ | le
    · rw [hw] at hrest
      exact ⟨by omega, hrest.2⟩
    · rw [hw] at hrest
      exact ⟨hrest.1, by omega, ih _ hrest.2.2⟩

theorem WChain_append_open (t j : Int) (pt : Int) (hsp : pt + 1000 ≤ t)
    (hj1 : pt < j) (hj2 : j ≤ t) :
    ∀ (lb : Option Int) (ws : List OWindow), WChain lb pt ws →
      openCount ws = 0 → (∀ le, lb = some le → le + 1000 ≤ pt) →
      WChain lb t (ws ++ [⟨j, none⟩]) := by
  intro lb ws
  induction ws generalizing lb with
  | nil =>
    intro _ _ hlb
    refine ⟨?_, hj2, rfl⟩
    rcases lb with _ | le
    · trivial
    · have := hlb le rfl
      show le < j
      omega
  | cons w ws ih =>
    intro h hopen hlb
    obtain ⟨hl, hrest⟩ := h
    rcases hw : w.leaveTime with _ | le
    · exfalso
      simp only [openCount, List.countP_cons, hw] at hopen
      simp at hopen
    · rw [hw] at hrest
      obtain ⟨hjle, hlept, hch⟩ := hrest
      refine ⟨hl, ?_⟩
      rw [hw]
      refine ⟨hjle, by omega, ?_⟩
      apply ih _ hch
      · simp only [openCount, List.countP_cons, hw] at hopen ⊢
        simpa using hopen
      · intro le' hle'
        injection hle' with hle'
        omega

theorem WChain_close (t : Int) (pt : Int) (hsp : pt + 1000 ≤ t) :
    ∀ (lb : Option Int) (ws : List OWindow), WChain lb pt ws →
      WChain lb t (closeFirstOpen t ws) := by
  intro lb ws
  induction ws generalizing lb with
  | nil => intro _; trivial
  | cons w ws ih =>
    intro h
    obtain ⟨hl, hrest⟩ := h
    rcases hw : w.leaveTime with _ | le
    · rw [hw] at hrest
      obtain ⟨hjpt, hws⟩ := hrest
      simp only [closeFirstOpen, if_pos hw, hws]
      refine ⟨hl, ?_, ?_, trivial⟩
      · show w.joinTime ≤ t - 1000
        omega
      · show t - 1000 + 1000 ≤ t
        omega
    · rw [hw] at hrest
      obtain ⟨hjle, hlept, hch⟩ := hrest
      have hne : ¬(w.leaveTime = none) := by rw [hw]; simp
      simp only [closeFirstOpen, if_neg hne]
      refine ⟨hl, ?_⟩
      rw [hw]
      exact ⟨hjle, by omega, ih _ hch⟩

theorem joinTimeFor_le_of_none (t : Int) (js : List Int) :
    joinTimeFor none t js ≤ t := by
  unfold joinTimeFor
  rcases hf : js.find? (fun jt => decide (jt ≤ t)) with _ | jt
  · simp
  · have := List.find?_some hf
    simp at this
    simpa using this

theorem joinTimeFor_bounds (pt : Int) (pus : List String) (t : Int)
    (js : List Int) (hsp : pt + 1000 ≤ t) :
    pt < joinTimeFor (some (pt, pus)) t js ∧
      joinTimeFor (some (pt, pus)) t js ≤ t := by
  unfold joinTimeFor
  rcases hf : js.find? (fun jt => decide (pt < jt ∧ jt ≤ t)) with _ | jt
  · have hM : MAX_GAP_MS = 1800000 := rfl
    by_cases hg : t - pt ≤ MAX_GAP_MS
    · simp only [if_pos hg]
      omega
    · simp only [if_neg hg]
      omega
  · have := List.find?_some hf
    simp at this
    simpa using this

theorem initBState_InvW : InvW initBState := by
  intro u
  rfl

theorem processSnapshot_InvW (joins : String → List Int) (st : BState)
    (s : Snapshot) (hw : InvW st) (ho : InvOpen st)
    (hsp : ∀ pt pus, st.prev = some (pt, pus) → pt + 1000 ≤ s.time) :
    InvW (processSnapshot joins st s) := by
  intro u
  show WChain none s.time ((processSnapshot joins st s).windows u)
  rw [processSnapshot_windows]
  rcases hprev : st.prev with _ | ⟨pt, pus⟩
  · have hwu : st.windows u = [] := by
      have h0 := hw u
      rw [hprev] at h0
      exact h0
    have hpu : st.prevUsers = [] := by simp [BState.prevUsers, hprev]
    by_cases hc : u ∈ snapUsers s
    · rw [if_pos ⟨hc, by simp [hpu]⟩, hwu]
      exact ⟨trivial, joinTimeFor_le_of_none s.time (joins u), rfl⟩
    · rw [if_neg (fun h => hc h.1), if_neg (by simp [hpu]), hwu]
      trivial
  · have hsp' : pt + 1000 ≤ s.time := hsp pt pus hprev
    have hwch : WChain none pt (st.windows u) := by
      have h0 := hw u
      rw [hprev] at h0
      exact h0
    by_cases h1 : u ∈ snapUsers s ∧ u ∉ st.prevUsers
    · rw [if_pos h1]
      obtain ⟨hj1, hj2⟩ := joinTimeFor_bounds pt pus s.time (joins u) hsp'
      refine WChain_append_open s.time _ pt hsp' hj1 hj2 none (st.windows u)
        hwch ?_ (fun le hle => by cases hle)
      have hcount := ho u
      rw [if_neg h1.2] at hcount
      exact hcount
    · rw [if_neg h1]
      by_cases h2 : u ∈ st.prevUsers ∧ u ∉ snapUsers s
      · rw [if_pos h2]
        exact WChain_close s.time pt hsp' none _ hwch
      · rw [if_neg h2]
        exact WChain_mono pt s.time (by omega) none _ hwch

theorem foldl_InvW (joins : String → List Int) (ps : List Snapshot) :
    ∀ st : BState, InvW st → InvOpen st →
      spacedOk (st.prev.map Prod.fst) ps = true →
      InvW (ps.foldl (processSnapshot joins) st) := by
  induction ps with
  | nil => intro st h _ _; exact h
  | cons s ss ih =>
    intro st hw ho hs
    simp only [List.foldl_cons]
    have hstep : ∀ pt pus, st.prev = some (pt, pus) → pt + 1000 ≤ s.time := by
      intro pt pus hp
      rw [hp] at hs
      simp only [Option.map_some, spacedOk, Bool.and_eq_true,
        decide_eq_true_eq] at hs
      exact hs.1
    refine ih _ (processSnapshot_InvW joins st s hw ho hstep)
      (processSnapshot_InvOpen joins st s ho) ?_
    rw [prev_processSnapshot]
    rcases hprev : st.prev with _ | ⟨pt, pus⟩
    · rw [hprev] at hs
      simp only [Option.map_none, spacedOk] at hs
      exact hs
    · rw [hprev] at hs
      simp only [Option.map_some, spacedOk, Bool.and_eq_true] at hs
      exact hs.2

theorem WChain_to_FChain (now : Int) :
    ∀ (pt : Int) (lb : Option Int) (ws : List OWindow), WChain lb pt ws →
      pt ≤ now →
      FChain lb (ws.map fun w =>
        ⟨w.joinTime, w.leaveTime.getD now, w.leaveTime.isNone⟩) := by
  intro pt lb ws
  induction ws generalizing lb with
  | nil => intro _ _; trivial
  | cons w ws ih =>
    intro h hn
    obtain ⟨hl, hrest⟩ := h
    rcases hw : w.leaveTime with _ | le
    · rw [hw] at hrest
      obtain ⟨hjpt, hws⟩ := hrest
      subst hws
      simp only [List.map_cons, List.map_nil, hw, Option.getD_none]
      refine ⟨hl, ?_, trivial⟩
      show w.joinTime ≤ now
      omega
    · rw [hw] at hrest
      obtain ⟨hjle, hlept, hch⟩ := hrest
      simp only [List.map_cons, hw, Option.getD_some]
      exact ⟨hl, hjle, ih _ hch hn⟩

theorem FChain_mem :
    ∀ (lb : Option Int) (ws : List Window), FChain lb ws →
      ∀ w ∈ ws, w.joinTime ≤ w.leaveTime := by
  intro lb ws
  induction ws generalizing lb with
  | nil => intro _ w hw; cases hw
  | cons v vs ih =>
    intro h w hw
    obtain ⟨-, hj, hch⟩ := h
    rcases List.mem_cons.mp hw with h1 | h1
    · subst h1; exact hj
    · exact ih _ hch w h1

/-- The final chain structure of every user's window list produced by
`buildPresenceWindows` on a chronologically spaced snapshot log. -/
theorem buildPresenceWindows_FChain (presence : List Snapshot)
    (joins : String → List Int) (now : Int)
    (hs : spacedOk none presence = true) (hn : lastLe presence now = true)
    (u : String) :
    FChain none ((buildPresenceWindows presence joins now).get u) := by
  have hinv : InvW (presence.foldl (processSnapshot joins) initBState) :=
    foldl_InvW joins presence initBState initBState_InvW initBState_InvOpen hs
  have h0 := hinv u
  show FChain none (((presence.foldl (processSnapshot joins) initBState).windows u).map _)
  rcases hprev : (presence.foldl (processSnapshot joins) initBState).prev
    with _ | ⟨pt, pus⟩
  · rw [hprev] at h0
    rw [h0]
    trivial
  · rw [hprev] at h0
    have hlast := foldl_prev joins presence initBState
    rw [hprev] at hlast
    rcases hgl : presence.getLast? with _ | s
    · rw [hgl] at hlast
      simp [initBState] at hlast
    · rw [hgl] at hlast
      have hpt : pt = s.time := by
        injection hlast with h1
        exact congrArg Prod.fst h1
      unfold lastLe at hn
      rw [hgl] at hn
      simp only [decide_eq_true_eq] at hn
      exact WChain_to_FChain now pt none _ h0 (by omega)

/-! ### C3 — window invariant -/

/-- Claim C3 (amended): on a chronologically spaced snapshot log (consecutive
snapshots at least one second apart — the granularity of the builder's
±1-second adjustments) with the run instant not before the last snapshot,
every window returned by `buildPresenceWindows` satisfies
`joinTime ≤ leaveTime`; and — unconditionally, for every input — at any
point of the build each user has at most one open window. The counterexample
shows `joinTime ≤ leaveTime` fails for sub-second snapshot spacing. -/
theorem presence_window_invariant (presence : List Snapshot)
    (joins : String → List Int) (now : Int)
    (hs : spacedOk none presence = true) (hn : lastLe presence now = true) :
    (∀ u w, w ∈ (buildPresenceWindows presence joins now).get u →
        w.joinTime ≤ w.leaveTime) ∧
      (∀ (ps : List Snapshot) (js : String → List Int) (u : String),
        openCount ((ps.foldl (processSnapshot js) initBState).windows u) ≤ 1) := by
  constructor
  · intro u w hw
    exact FChain_mem none _
      (buildPresenceWindows_FChain presence joins now hs hn u) w hw
  · intro ps js u
    have h := foldl_InvOpen js ps initBState initBState_InvOpen u
    rw [h]
    split <;> omega

/-- Witness for C3 at a concrete two-snapshot log: user `a` is seen at time
0 and gone at 60000, producing the single closed window `[0, 59000]`. -/
theorem presence_window_invariant_witness :
    (⟨0, 59000, false⟩ : Window) ∈
        (buildPresenceWindows [⟨0, ["a"]⟩, ⟨60000, []⟩] (fun _ => []) 60000).get "a" ∧
      (⟨0, 59000, false⟩ : Window).joinTime ≤ (⟨0, 59000, false⟩ : Window).leaveTime :=
  ⟨by decide,
    (presence_window_invariant [⟨0, ["a"]⟩, ⟨60000, []⟩] (fun _ => []) 60000
        (by decide) (by decide)).1 "a" ⟨0, 59000, false⟩ (by decide)⟩

/-- Counterexample for C3 as stated: snapshots 500 ms apart make the builder
synthesize a join one second after the previous snapshot and a leave one
second before the next one, producing a closed window with
`joinTime = 1000 > 0 = leaveTime`. -/
theorem presence_window_counterexample :
    (buildPresenceWindows [⟨0, []⟩, ⟨500, ["a"]⟩, ⟨1000, []⟩]
        (fun _ => []) 2000).get "a" = [⟨1000, 0, false⟩] ∧
      ¬((1000 : Int) ≤ (0 : Int)) := by
  decide

/-! ### C6 — overlap bounds -/

theorem overlapMs_cons (w : Window) (ws : List Window) (ts te : Int) :
    overlapMs (w :: ws) ts te = overlapStep ts te 0 w + overlapMs ws ts te := by
  have h := overlapMs_foldl_acc ws ts te (overlapStep ts te 0 w)
  simp only [overlapMs, List.foldl_cons] at *
  rw [overlapStep_shift, zero_add] at h
  rw [overlapStep_shift, zero_add, h]

theorem presenceMs_cons (w : Window) (ws : List Window) :
    presenceMs (w :: ws) = (w.leaveTime - w.joinTime) + presenceMs ws := by
  simp only [presenceMs, List.foldl_cons]
  rw [foldl_add_eq (fun w : Window => w.leaveTime - w.joinTime) ws,
    foldl_add_eq (fun w : Window => w.leaveTime - w.joinTime) ws]
  omega

theorem overlapMs_le_timer (ts te : Int) (hts : ts ≤ te) :
    ∀ (lb : Option Int) (ws : List Window), FChain lb ws →
      overlapMs ws ts te ≤ max 0 (te - max ts (lbval lb ts)) := by
  intro lb ws
  induction ws generalizing lb with
  | nil =>
    intro _
    simp only [overlapMs, List.foldl_nil]
    omega
  | cons w ws ih =>
    intro h
    obtain ⟨hl, hj, hch⟩ := h
    have hrest := ih (some w.leaveTime) hch
    rw [overlapMs_cons]
    rcases lb with _ | l
    · simp only [lbval] at hrest ⊢
      unfold overlapStep
      split <;> omega
    · simp only [lbval] at hrest ⊢
      have hlj : l < w.joinTime := hl
      unfold overlapStep
      split <;> omega

theorem overlapMs_le_presence (ts te : Int) :
    ∀ (lb : Option Int) (ws : List Window), FChain lb ws →
      overlapMs ws ts te ≤ presenceMs ws := by
  intro lb ws
  induction ws generalizing lb with
  | nil => intro _; simp [overlapMs, presenceMs]
  | cons w ws ih =>
    intro h
    obtain ⟨-, hj, hch⟩ := h
    have hrest := ih (some w.leaveTime) hch
    rw [overlapMs_cons, presenceMs_cons]
    have hc : overlapStep ts te 0 w ≤ w.leaveTime - w.joinTime := by
      unfold overlapStep
      split <;> omega
    omega

/-- Claim C6 (amended): with chronologically spaced snapshots (at least one
second apart) and the run instant not before the last snapshot, the overlap
minutes of `calculateOverlap` are bounded by the timer's duration in minutes
and by the user's total presence time. The counterexample shows the
presence-sum bound fails when the snapshot log is out of order. -/
theorem overlap_bounds (presence : List Snapshot) (joins : String → List Int)
    (now : Int) (user : String) (ts te : Int)
    (hs : spacedOk none presence = true) (hn : lastLe presence now = true)
    (hts : ts ≤ te) :
    calculateOverlap (buildPresenceWindows presence joins now) user ts te ≤
        ((te - ts : Int) : ℚ) / 60000 ∧
      calculateOverlap (buildPresenceWindows presence joins now) user ts te ≤
        calculatePresenceTime ((buildPresenceWindows presence joins now).get user) := by
  have hch := buildPresenceWindows_FChain presence joins now hs hn user
  constructor
  · have h1 := overlapMs_le_timer ts te hts none _ hch
    have h2 : overlapMs ((buildPresenceWindows presence joins now).get user) ts te ≤
        te - ts := by
      simp only [lbval] at h1
      omega
    unfold calculateOverlap
    apply div_le_div_of_nonneg_right ?_ ?_
    · exact_mod_cast h2
    · norm_num
  · have h1 := overlapMs_le_presence ts te none _ hch
    unfold calculateOverlap calculatePresenceTime
    apply div_le_div_of_nonneg_right ?_ ?_
    · exact_mod_cast h1
    · norm_num

/-- Witness for C6: user `a` present on `[0, 59000]`, timer `[0, 60000]` —
the overlap is below one minute and below the presence total. -/
theorem overlap_bounds_witness :
    calculateOverlap (buildPresenceWindows [⟨0, ["a"]⟩, ⟨60000, []⟩]
        (fun _ => []) 60000) "a" 0 60000 ≤ ((60000 - 0 : Int) : ℚ) / 60000 ∧
      calculateOverlap (buildPresenceWindows [⟨0, ["a"]⟩, ⟨60000, []⟩]
          (fun _ => []) 60000) "a" 0 60000 ≤
        calculatePresenceTime ((buildPresenceWindows [⟨0, ["a"]⟩, ⟨60000, []⟩]
          (fun _ => []) 60000).get "a") :=
  overlap_bounds [⟨0, ["a"]⟩, ⟨60000, []⟩] (fun _ => []) 60000 "a" 0 60000
    (by decide) (by decide) (by decide)

/-- Counterexample for C6 as stated (for arbitrary snapshot input): with an
out-of-order snapshot log the builder produces the inverted window
`[100000, -1000]`, whose total duration is negative, and the overlap (0)
exceeds the window-duration sum. -/
theorem overlap_presence_counterexample :
    ¬(calculateOverlap (buildPresenceWindows [⟨100000, ["a"]⟩, ⟨0, []⟩]
          (fun _ => []) 200000) "a" 0 60000 ≤
      calculatePresenceTime ((buildPresenceWindows [⟨100000, ["a"]⟩, ⟨0, []⟩]
          (fun _ => []) 200000).get "a")) := by
  have hw : (buildPresenceWindows [⟨100000, ["a"]⟩, ⟨0, []⟩]
      (fun _ => []) 200000).get "a" = [⟨100000, -1000, false⟩] := by decide
  unfold calculateOverlap calculatePresenceTime
  rw [hw]
  norm_num [overlapMs, presenceMs, overlapStep]

/-! ### C1 — determinism across runs -/

/-- When the last snapshot records nobody present, every window is closed at
a snapshot and the builder's result does not depend on the run instant. -/
theorem buildPresenceWindows_now_of_closed (presence : List Snapshot)
    (joins : String → List Int) (h : lastUsersEmpty presence = true)
    (now1 now2 : Int) :
    buildPresenceWindows presence joins now1 =
      buildPresenceWindows presence joins now2 := by
  have hopen : ∀ u,
      openCount ((presence.foldl (processSnapshot joins) initBState).windows u) = 0 := by
    intro u
    have hio := foldl_InvOpen joins presence initBState initBState_InvOpen u
    rcases hgl : presence.getLast? with _ | s
    · have hnil : presence = [] := List.getLast?_eq_none.mp hgl
      subst hnil
      exact initBState_InvOpen u
    · have hprev := foldl_prev joins presence initBState
      rw [hgl] at hprev
      have hpu : (presence.foldl (processSnapshot joins) initBState).prevUsers =
          snapUsers s := by
        rw [BState.prevUsers, hprev]
        rfl
      unfold lastUsersEmpty at h
      rw [hgl] at h
      have hse : snapUsers s = [] := List.isEmpty_iff.mp h
      rw [hio, hpu, hse]
      simp
  unfold buildPresenceWindows
  show UserWindows.mk (List.foldl (processSnapshot joins) initBState presence).seen
      (fun u => ((List.foldl (processSnapshot joins) initBState presence).windows u).map
        fun w => ⟨w.joinTime, w.leaveTime.getD now1, w.leaveTime.isNone⟩) =
    UserWindows.mk (List.foldl (processSnapshot joins) initBState presence).seen
      (fun u => ((List.foldl (processSnapshot joins) initBState presence).windows u).map
        fun w => ⟨w.joinTime, w.leaveTime.getD now2, w.leaveTime.isNone⟩)
  congr 1
  funext u
  apply List.map_congr_left
  intro w hwmem
  have hnone : ¬(w.leaveTime.isNone = true) := by
    have h0 := hopen u
    unfold openCount at h0
    exact List.countP_eq_zero.mp h0 w hwmem
  rcases hle : w.leaveTime with _ | le
  · rw [hle] at hnone
    simp at hnone
  · simp [hle]

theorem generateLeaderboard_erase (stats : List (String × UserStat))
    (latest : List String) (timers : List Timer) (uw : UserWindows)
    (n1 n2 : Int) :
    ({ generateLeaderboard stats latest timers uw n1 with generated := 0 } :
        Leaderboard) =
      { generateLeaderboard stats latest timers uw n2 with generated := 0 } := rfl

/-- Claim C1 (amended): on a fixed input whose final snapshot records no
present users — so no window is still open — two runs of the engine at
different wall-clock instants produce identical leaderboards except for the
`generated` timestamp. (The counterexample shows that with a user still
present in the final snapshot, that user's presence minutes also change with
the run instant, so the claim as stated fails.) -/
theorem run_deterministic_modulo_generated (activities : List Activity)
    (presence : List Snapshot) (now1 now2 : Int)
    (h : lastUsersEmpty presence = true) :
    (runMain activities presence now1).map (fun lb => { lb with generated := 0 }) =
      (runMain activities presence now2).map (fun lb => { lb with generated := 0 }) := by
  by_cases hemp : presence = [] ∧ activities = []
  · unfold runMain
    rw [if_pos hemp, if_pos hemp]
  · have huw := buildPresenceWindows_now_of_closed presence
      (extractJoinEvents activities) h now1 now2
    unfold runMain
    rw [if_neg hemp, if_neg hemp]
    simp only [Option.map_some]
    rw [huw]
    exact congrArg some (generateLeaderboard_erase _ _ _ _ now1 now2)

/-- Witness for C1 (amended): a log ending with an empty snapshot yields the
same leaderboard (modulo `generated`) at run instants 70000 and 80000. -/
theorem run_deterministic_witness :
    (runMain [] [⟨0, ["a"]⟩, ⟨60000, []⟩] 70000).map
        (fun lb => { lb with generated := 0 }) =
      (runMain [] [⟨0, ["a"]⟩, ⟨60000, []⟩] 80000).map
        (fun lb => { lb with generated := 0 }) :=
  run_deterministic_modulo_generated [] [⟨0, ["a"]⟩, ⟨60000, []⟩] 70000 80000
    (by decide)

/-- Counterexample for C1 as stated: with user `a` still present in the only
snapshot, the open window is closed at the run instant, and the reported
presence minutes differ between a run at 60000 and a run at 120000 — a
difference beyond the `generated` field. -/
theorem run_wall_clock_counterexample :
    (runMain [] [⟨0, ["a"]⟩] 60000).map
          (fun lb => lb.users.map (·.lastSeen)) ≠
        (runMain [] [⟨0, ["a"]⟩] 120000).map
          (fun lb => lb.users.map (·.lastSeen)) ∧
      calculatePresenceTime
          ((buildPresenceWindows [⟨0, ["a"]⟩] (fun _ => []) 60000).get "a") ≠
        calculatePresenceTime
          ((buildPresenceWindows [⟨0, ["a"]⟩] (fun _ => []) 120000).get "a") := by
  constructor
  · decide
  · have h1 : (buildPresenceWindows [⟨0, ["a"]⟩] (fun _ => []) 60000).get "a" =
        [⟨0, 60000, true⟩] := by decide
    have h2 : (buildPresenceWindows [⟨0, ["a"]⟩] (fun _ => []) 120000).get "a" =
        [⟨0, 120000, true⟩] := by decide
    rw [h1, h2]
    unfold calculatePresenceTime presenceMs
    norm_num [List.foldl_cons, List.foldl_nil]

/-! ### C9 — degenerate inputs -/

/-- Counterexample for C9 as stated: with both the activity and the presence
tables empty, `main` returns before generating anything — no leaderboard at
all is produced, rather than an empty-but-valid one. -/
theorem empty_logs_no_leaderboard_counterexample : runMain [] [] 0 = none := rfl

/-- Claim C9 (amended): the engine never throws; when both input tables are
empty it produces no leaderboard at all (main returns early — see the
counterexample); on every other input, including a single snapshot or logs
with no recognized timers, it produces a well-formed leaderboard whose
`totalUsers` matches its user list and whose totals sum its per-user counts,
and an empty presence table yields the empty-but-valid leaderboard (zero
users, zero totals). -/
theorem degenerate_inputs_well_formed (activities : List Activity)
    (presence : List Snapshot) (now : Int)
    (h : ¬(presence = [] ∧ activities = [])) :
    ∃ lb, runMain activities presence now = some lb ∧
      lb.totalUsers = lb.users.length ∧
      lb.totalPomodoros = (lb.users.map (·.pomodoroCount)).sum ∧
      (presence = [] →
        lb.users = [] ∧ lb.totalUsers = 0 ∧ lb.totalPomodoros = 0 ∧
          lb.totalWorkMinutes = 0 ∧ lb.currentlyPresent = []) := by
  unfold runMain
  rw [if_neg h]
  refine ⟨_, rfl, ?_, ?_, ?_⟩
  · simp [generateLeaderboard]
  · simp only [generateLeaderboard, List.map_map]
    rw [foldl_add_eq (fun u : RankedEntry => u.stats.pomodoroCount), zero_add]
    rfl
  · intro hp
    subst hp
    exact ⟨rfl, rfl, rfl, rfl, rfl⟩

/-- Witness for C9 (amended): an activity-only log (empty presence table)
produces a well-formed, empty leaderboard rather than failing. -/
theorem degenerate_inputs_witness :
    ∃ lb, runMain [⟨0, "alice", ['h', 'i']⟩] [] 5 = some lb ∧
      lb.totalUsers = lb.users.length ∧
      lb.totalPomodoros = (lb.users.map (·.pomodoroCount)).sum ∧
      (([] : List Snapshot) = [] →
        lb.users = [] ∧ lb.totalUsers = 0 ∧ lb.totalPomodoros = 0 ∧
          lb.totalWorkMinutes = 0 ∧ lb.currentlyPresent = []) :=
  degenerate_inputs_well_formed [⟨0, "alice", ['h', 'i']⟩] [] 5 (by simp)

end Cuckoo
